import Mathlib

/-!
Verification of the NEGOEX message-stream parser (`src/packet-negoex.c`).

The development shallowly embeds the dissector: a capture buffer becomes a
list of bytes together with a reported length (`Tvb`), the Wireshark
`proto_tree_add_*` sink calls become an append-only list of `Field` events,
and the `TRY`/`CATCH_NONFATAL_ERRORS` exception discipline becomes an
exception monad `ERes` that keeps the events emitted before the failure.
Offsets and lengths are `Nat`, with `% 2^32` at the points where the C code
uses `guint32` arithmetic that can wrap.

The BER identifier/length readers (`get_ber_identifier`, `get_ber_length`)
live in Wireshark's `packet-ber.c`, which is not part of this repository's
sources; they are modelled from the specification (§4.3 BER Micro-Reader).
Everything else is translated directly from `src/packet-negoex.c`.
-/

set_option maxRecDepth 40000

namespace Negoex

/-- `2^32`, the modulus of `guint32` arithmetic. -/
def u32 : Nat := 4294967296

/-- A capture buffer: `data` is the captured bytes (`tvb_captured_length` is
`data.length`), `reported` is the reported length (`tvb_reported_length`). -/
structure Tvb where
  data : List Nat
  reported : Nat
deriving DecidableEq, Repr

/-- A fully captured buffer: reported length equals captured length. -/
def mkTvb (bs : List Nat) : Tvb := ⟨bs, bs.length⟩

/-- Byte at index `i`; capture buffers hold octets, so the value is reduced
mod 256 (a C `guint8`). Out-of-range reads are guarded separately. -/
def byteAt (t : Tvb) (i : Nat) : Nat := t.data.getD i 0 % 256

/-- Decode errors: `outOfBounds` models a thrown `BoundsError` /
`ReportedBoundsError` from a tvb accessor, `berMalformed` a failure of the
BER micro-reader (truncated identifier or length octets). -/
inductive DErr where
  | outOfBounds
  | berMalformed
deriving DecidableEq, Repr

/-- Header-field identifiers: one constructor per `hf_negoex_*` handle that
the dissector actually emits. -/
inductive HF where
  | sig | messageType | seqNum | headerLen | messageLen | convId
  | random | protoVersion | authscheme
  | asVecOffset | asVecCount | asVecPad
  | ext | extVecOffset | extVecCount | extVecPad
  | exchVecOffset | exchVecCount | exchVecPad | exchange
  | checksumScheme | checksumType
  | cvOffset | cvCount | cvPad | checksum
  | errorcode | rest
deriving DecidableEq, Repr

/-- Formatted-subtree kinds (`proto_tree_add_subtree_format` call sites). -/
inductive SubKind where
  | header | authschemes | extensions | byteVector
  | exchange | checksum | checksumVector | pku2u
deriving DecidableEq, Repr

/-- One event sent to the field sink.  `item hf off len` is a
`proto_tree_add_item` (the byte range it renders), `uint` a
`proto_tree_add_uint` carrying a precomputed value, `sub k off a b` a
formatted subtree at position `off` whose two `%u` format arguments are `a`
and `b` (0 when the format has none), `bytesRest hf off len` a
`proto_tree_add_bytes_format` with remaining-length `-1`, `msgTree` the
per-message subtree (`known` records whether `val_to_str_const` found the
type, i.e. whether the message is flagged unknown), `colInfo` the
`col_append_sep_str` of the type name, `delegate off` the call to the
external `dissect_kerberos_Applications_pku2u` at `off`, `oidText` the
`proto_item_append_text` annotation of `dissect_pku2u_oid`, and `exception`
the `show_exception` marker added when a per-message decode fails. -/
inductive Field where
  | protoRoot
  | msgTree (known : Bool) (mtype : Nat) (off : Nat)
  | colInfo (known : Bool) (mtype : Nat)
  | item (hf : HF) (off len : Nat)
  | uint (hf : HF) (off len val : Nat)
  | sub (k : SubKind) (off : Nat) (a b : Nat)
  | bytesRest (hf : HF) (off len : Nat)
  | oidText
  | delegate (off : Nat)
  | exception
deriving DecidableEq, Repr

deriving instance DecidableEq for Except

/-- Result of a dissection step: the fields emitted so far (they persist
even when an exception is thrown later) and the outcome. -/
structure ERes (α : Type) where
  emits : List Field
  res : Except DErr α
deriving Repr, DecidableEq

/-- Sequencing with exception propagation: emissions accumulate, an error
stops the continuation but keeps what was already emitted. -/
def ERes.seq (x : ERes α) (f : α → ERes β) : ERes β :=
  match x.res with
  | .error e => ⟨x.emits, .error e⟩
  | .ok a => ⟨x.emits ++ (f a).emits, (f a).res⟩

instance : Monad ERes where
  pure a := ⟨[], .ok a⟩
  bind := ERes.seq

/-- Lift a plain fallible read (no emission) into `ERes`. -/
def liftE (x : Except DErr α) : ERes α := ⟨[], x⟩

/-- Emit a single sink event. -/
def emitF (f : Field) : ERes Unit := ⟨[f], .ok ()⟩

/-- `tvb_get_guint8`: one byte, `OutOfBounds` past the captured length. -/
def tvbGet8 (t : Tvb) (off : Nat) : Except DErr Nat :=
  if off < t.data.length then .ok (byteAt t off) else .error .outOfBounds

/-- Value of the 2-byte little-endian word at `off` (unguarded). -/
def le16val (t : Tvb) (off : Nat) : Nat :=
  byteAt t off + 256 * byteAt t (off + 1)

/-- Value of the 4-byte little-endian word at `off` (unguarded). -/
def le32val (t : Tvb) (off : Nat) : Nat :=
  byteAt t off + 256 * byteAt t (off + 1) + 65536 * byteAt t (off + 2) +
    16777216 * byteAt t (off + 3)

/-- `tvb_get_letohs`: bounds-checked 2-byte little-endian read. -/
def getLetohs (t : Tvb) (off : Nat) : Except DErr Nat :=
  if off + 2 ≤ t.data.length then .ok (le16val t off) else .error .outOfBounds

/-- `tvb_get_letohl`: bounds-checked 4-byte little-endian read. -/
def getLetohl (t : Tvb) (off : Nat) : Except DErr Nat :=
  if off + 4 ≤ t.data.length then .ok (le32val t off) else .error .outOfBounds

/-- `proto_tree_add_item`: renders `len` bytes at `off`; throws (emitting
nothing) when the range runs past the captured length. -/
def addItem (t : Tvb) (hf : HF) (off len : Nat) : ERes Unit :=
  if off + len ≤ t.data.length then ⟨[.item hf off len], .ok ()⟩
  else ⟨[], .error .outOfBounds⟩

/-- `proto_tree_add_bytes_format` with length `-1`: renders everything from
`off` to the end of the captured data; throws if `off` is out of range. -/
def addBytesRest (t : Tvb) (hf : HF) (off : Nat) : ERes Unit :=
  if off ≤ t.data.length then ⟨[.bytesRest hf off (t.data.length - off)], .ok ()⟩
  else ⟨[], .error .outOfBounds⟩

/-- `tvb_new_subset_length_caplen tvb off len rep`: throws unless
`off + len` fits in the captured data, otherwise yields the slice with its
own reported length. -/
def tvbSubset (t : Tvb) (off len rep : Nat) : Except DErr Tvb :=
  if off + len ≤ t.data.length then .ok ⟨(t.data.drop off).take len, rep⟩
  else .error .outOfBounds

/-- BER tag classes (top two bits of the identifier octet). -/
inductive BerClass where
  | universal | application | contextSpecific | priv
deriving DecidableEq, Repr

/-- Class from the top two bits of the identifier octet. -/
def berClassOf (b : Nat) : BerClass :=
  match b / 64 with
  | 0 => .universal
  | 1 => .application
  | 2 => .contextSpecific
  | _ => .priv

/-- Modelled from the spec (§4.3): continuation octets of a long-form BER
tag (low 5 identifier bits all set), 7 bits per octet, high bit set on all
but the last; accumulated mod 2^32 (the C tag is 32-bit).  `fuel` bounds
the scan by the buffer length; running out means a truncated identifier. -/
def berLongTag (t : Tvb) : Nat → Nat → Nat → Except DErr (Nat × Nat)
  | 0, _, _ => .error .berMalformed
  | fuel + 1, off, acc =>
    match tvbGet8 t off with
    | .error _ => .error .berMalformed
    | .ok b =>
      let acc2 := (acc * 128 + b % 128) % u32
      if b < 128 then .ok (acc2, off + 1) else berLongTag t fuel (off + 1) acc2

/-- Modelled from the spec (§4.3 BER Micro-Reader): `get_ber_identifier`
reads one identifier octet at `off` and returns the tag class (top two
bits), the constructed flag (bit 5), the tag number (low five bits, or the
following base-128 octets when those bits are all ones), and the offset
just past the identifier.  Fails with `berMalformed` on truncation.
The implementation lives in Wireshark's `packet-ber.c`, outside `src/`. -/
def get_ber_identifier (t : Tvb) (off : Nat) :
    Except DErr (BerClass × Bool × Nat × Nat) :=
  match tvbGet8 t off with
  | .error _ => .error .berMalformed
  | .ok b =>
    let cls := berClassOf b
    let pc := b / 32 % 2 = 1
    if b % 32 = 31 then
      match berLongTag t (t.data.length + 1) (off + 1) 0 with
      | .error e => .error e
      | .ok (tag, off2) => .ok (cls, pc, tag, off2)
    else .ok (cls, pc, b % 32, off + 1)

/-- Long-form length octets: big-endian accumulation of `n` octets,
reduced mod 2^32 (the C length is a `guint32`). -/
def berLenOctets (t : Tvb) : Nat → Nat → Nat → Except DErr (Nat × Nat)
  | 0, off, acc => .ok (acc, off)
  | n + 1, off, acc =>
    match tvbGet8 t off with
    | .error _ => .error .berMalformed
    | .ok b => berLenOctets t n (off + 1) ((acc * 256 + b) % u32)

/-- Modelled from the spec (§4.3 BER Micro-Reader): `get_ber_length` reads
one length octet at `off`; values below 0x80 are short-form lengths, 0x80
marks an indefinite length (flag recognized, not resolved), and 0x80+n
introduces `n` big-endian length octets.  Fails with `berMalformed` on
truncation.  The implementation lives in Wireshark's `packet-ber.c`,
outside `src/`. -/
def get_ber_length (t : Tvb) (off : Nat) : Except DErr (Nat × Bool × Nat) :=
  match tvbGet8 t off with
  | .error _ => .error .berMalformed
  | .ok b =>
    if b < 128 then .ok (b, false, off + 1)
    else if b = 128 then .ok (0, true, off + 1)
    else
      match berLenOctets t (b - 128) (off + 1) 0 with
      | .error e => .error e
      | .ok (len, off2) => .ok (len, false, off2)

/-- `dissect_negoex_alert_message` (packet-negoex.c:119-141): AuthScheme
GUID, 4-byte error code, then the rest of the message as opaque bytes. -/
def dissect_negoex_alert_message (t : Tvb) (startOff : Nat) : ERes Unit := do
  addItem t .authscheme startOff 16
  addItem t .errorcode (startOff + 16) 4
  addBytesRest t .rest (startOff + 20)

/-- `dissect_negoex_verify_message` (packet-negoex.c:143-200): AuthScheme,
a checksum header (cbHeaderLength, ChecksumScheme, ChecksumType), the
checksum vector descriptor, then the referenced checksum bytes. -/
def dissect_negoex_verify_message (t : Tvb) (startOff : Nat) : ERes Unit := do
  addItem t .authscheme startOff 16
  emitF (.sub .checksum (startOff + 16) 0 0)
  addItem t .headerLen (startOff + 16) 4
  addItem t .checksumScheme (startOff + 20) 4
  addItem t .checksumType (startOff + 24) 4
  let cvOff ← liftE (getLetohl t (startOff + 28))
  let cvCnt ← liftE (getLetohs t (startOff + 32))
  emitF (.sub .checksumVector (startOff + 28) cvCnt cvOff)
  addItem t .cvOffset (startOff + 28) 4
  addItem t .cvCount (startOff + 32) 2
  addItem t .cvPad (startOff + 34) 2
  addItem t .checksum cvOff cvCnt

/-- `dissect_negoex_exchange_message` (packet-negoex.c:259-336): AuthScheme,
the exchange vector descriptor, then the PKU2U peek: a BER identifier and
length are read at the position immediately after the descriptor
(`startOff + 24`); unless the identifier is APPLICATION/constructed/tag 0
the referenced span is emitted as opaque exchange bytes, otherwise two
inner TLVs are skipped by their declared lengths and the external
Kerberos/PKU2U dissector is invoked at the offset after the second one. -/
def dissect_negoex_exchange_message (t : Tvb) (startOff : Nat) : ERes Unit := do
  addItem t .authscheme startOff 16
  let vecOff ← liftE (getLetohl t (startOff + 16))
  let vecCnt ← liftE (getLetohs t (startOff + 20))
  emitF (.sub .exchange (startOff + 16) vecCnt vecOff)
  addItem t .exchVecOffset (startOff + 16) 4
  addItem t .exchVecCount (startOff + 20) 2
  addItem t .exchVecPad (startOff + 22) 2
  let (cls, pc, tag, o1) ← liftE (get_ber_identifier t (startOff + 24))
  let (_len1, _i1, o2) ← liftE (get_ber_length t o1)
  if cls = .application ∧ pc ∧ tag = 0 then do
    let (_, _, _, o3) ← liftE (get_ber_identifier t o2)
    let (len2, _i2, o4) ← liftE (get_ber_length t o3)
    let m1 := (o4 + len2) % u32
    let (_, _, _, o5) ← liftE (get_ber_identifier t m1)
    let (len3, _i3, o6) ← liftE (get_ber_length t o5)
    let m2 := (o6 + len3) % u32
    emitF (.sub .pku2u m2 0 0)
    emitF (.delegate m2)
  else
    addItem t .exchange vecOff vecCnt

/-- Runs `f 0`, `f 1`, …, `f (k-1)` in order, stopping at the first
failure (the C `for` loops over vector elements). -/
def forRange (k : Nat) (f : Nat → ERes Unit) : ERes Unit :=
  match k with
  | 0 => pure ()
  | k + 1 => do
    forRange k f
    f k

/-- `dissect_negoex_nego_message` (packet-negoex.c:346-439): random,
protocol version, the AuthScheme vector (one GUID per element), then the
extension vector.  Two quirks of the source are kept: the extensions
subtree label passes the count for both format arguments (line 402), and
the per-extension byte-vector descriptor is read at the fixed offset
`startOff + 56` on every iteration (the loop never advances `offset`,
lines 416-434). -/
def dissect_negoex_nego_message (t : Tvb) (startOff : Nat) : ERes Unit := do
  addItem t .random startOff 32
  addItem t .protoVersion (startOff + 32) 8
  let asOff ← liftE (getLetohl t (startOff + 40))
  let asCnt ← liftE (getLetohs t (startOff + 44))
  emitF (.sub .authschemes (startOff + 40) asCnt asOff)
  addItem t .asVecOffset (startOff + 40) 4
  addItem t .asVecCount (startOff + 44) 2
  addItem t .asVecPad (startOff + 46) 2
  forRange asCnt (fun i => addItem t .authscheme (asOff + i * 16) 16)
  let extOff ← liftE (getLetohl t (startOff + 48))
  let extCnt ← liftE (getLetohs t (startOff + 52))
  emitF (.sub .extensions (startOff + 48) extCnt extCnt)
  addItem t .extVecOffset (startOff + 48) 4
  addItem t .extVecCount (startOff + 52) 2
  addItem t .extVecPad (startOff + 54) 2
  forRange extCnt (fun i => do
    let bvOff ← liftE (getLetohl t (startOff + 56))
    let bvCnt ← liftE (getLetohs t (startOff + 60))
    emitF (.sub .byteVector (extOff + i * 8) bvCnt bvOff)
    addItem t .ext bvOff bvCnt)

/-- The `switch (message_type)` of `dissect_negoex` (packet-negoex.c:550-586):
known types dispatch to their body decoder over the per-message sub-tvb;
the `default` arm (unreachable, since unknown types punt earlier) renders
the rest of the message from the outer buffer. -/
def bodyDispatch (mtype : Nat) (mt : Tvb) (startOff : Nat)
    (outer : Tvb) (outerOff mlen : Nat) : ERes Unit :=
  match mtype with
  | 0 | 1 => dissect_negoex_nego_message mt startOff
  | 2 | 3 | 4 | 5 => dissect_negoex_exchange_message mt startOff
  | 6 => dissect_negoex_verify_message mt startOff
  | 7 => dissect_negoex_alert_message mt startOff
  | _ =>
    if outerOff + (mlen - 40) ≤ outer.data.length then
      ⟨[.bytesRest .rest outerOff (mlen - 40)], .ok ()⟩
    else ⟨[], .error .outOfBounds⟩

/-- One iteration of the `while` loop of `dissect_negoex`
(packet-negoex.c:479-592), i.e. the body of the `TRY` block: decode the
fixed header at `off`, punt to the end of the payload on an unknown
message type, otherwise build the per-message sub-tvb, dispatch the body,
and return the next offset `(off + message_len) mod 2^32`. -/
def msgStep (t : Tvb) (off : Nat) : ERes Nat := do
  let mtype ← liftE (getLetohl t (off + 8))
  let known := decide (mtype ≤ 7)
  emitF (.msgTree known mtype off)
  emitF (.sub .header off 0 0)
  addItem t .sig off 8
  emitF (.colInfo known mtype)
  emitF (.uint .messageType (off + 8) 4 mtype)
  if mtype > 7 then
    pure t.reported
  else do
    addItem t .seqNum (off + 12) 4
    let hlen ← liftE (getLetohl t (off + 16))
    emitF (.uint .headerLen (off + 16) 4 hlen)
    let mlen ← liftE (getLetohl t (off + 20))
    emitF (.uint .messageLen (off + 20) 4 mlen)
    addItem t .convId (off + 24) 16
    let mt ← liftE (tvbSubset t off (min mlen t.data.length) mlen)
    bodyDispatch mtype mt 40 t (off + 40) mlen
    pure ((off + mlen) % u32)

/-- The `while (offset < payload_len && !done)` loop of `dissect_negoex`
(packet-negoex.c:470-598), with explicit fuel.  A failed iteration is the
`CATCH_NONFATAL_ERRORS` arm: keep the fields already emitted, add the
`show_exception` marker, and stop (`done = TRUE`). -/
def negoexLoop (t : Tvb) : Nat → Nat → List Field
  | 0, _ => []
  | fuel + 1, off =>
    if off < t.reported then
      match (msgStep t off).res with
      | .error _ => (msgStep t off).emits ++ [Field.exception]
      | .ok next => (msgStep t off).emits ++ negoexLoop t fuel next
    else []

/-- `dissect_negoex` (packet-negoex.c:441-601): the root protocol item,
the message loop from offset 0, and the return value
`tvb_captured_length(tvb)`.  The fuel `reported + 1` is sufficient; see
`negoexLoop_fuel_stable`. -/
def dissect_negoex (t : Tvb) : List Field × Nat :=
  (Field.protoRoot :: negoexLoop t (t.reported + 1) 0, t.data.length)

/-- The header fields a known-type message at `off` emits before its body
(the first part of `msgStep`). -/
def hdrEmits (t : Tvb) (off : Nat) : List Field :=
  [.msgTree (decide (le32val t (off + 8) ≤ 7)) (le32val t (off + 8)) off,
   .sub .header off 0 0, .item .sig off 8,
   .colInfo (decide (le32val t (off + 8) ≤ 7)) (le32val t (off + 8)),
   .uint .messageType (off + 8) 4 (le32val t (off + 8)),
   .item .seqNum (off + 12) 4,
   .uint .headerLen (off + 16) 4 (le32val t (off + 16)),
   .uint .messageLen (off + 20) 4 (le32val t (off + 20)),
   .item .convId (off + 24) 16]

/-- The per-message sub-tvb that `msgStep` builds for the message at `off`
(`tvb_new_subset_length_caplen` with the bounds check already passed). -/
def subTvbOf (t : Tvb) (off : Nat) : Tvb :=
  ⟨(t.data.drop off).take (min (le32val t (off + 20)) t.data.length),
   le32val t (off + 20)⟩

/-- The body dispatch `msgStep` performs for the message at `off`. -/
def bodyOf (t : Tvb) (off : Nat) : ERes Unit :=
  bodyDispatch (le32val t (off + 8)) (subTvbOf t off) 40 t (off + 40)
    (le32val t (off + 20))

/-! ### The file-scope annotation global

`packet-negoex.c:203` declares `static const char *object_identifier_id`,
written and read only by `dissect_pku2u_oid` (lines 204-217).  That helper
is referenced from the local `pku2u_sequence` table but is never invoked by
`dissect_negoex`, which calls the external `dissect_kerberos_Applications_pku2u`
instead; the global is therefore process state that the entry point never
touches.  The state is made explicit below so that independence of
invocations can be stated. -/

/-- Type of the file-scope `object_identifier_id` global (packet-negoex.c:203). -/
def GlobalOidState := Option String

/-- `dissect_pku2u_oid` (packet-negoex.c:204-217): the external
`dissect_ber_object_identifier_str` writes the decoded OID string through a
pointer to the file-scope global (`decoded` stands for the value that call
writes); the function then reads the global back and, when non-null,
appends the resolved-name annotation.  Not reachable from `dissect_negoex`. -/
def dissect_pku2u_oid (decoded : Option String) (_g : GlobalOidState) :
    GlobalOidState × List Field :=
  (decoded, match decoded with
    | some _ => [Field.oidText]
    | none => [])

/-- One invocation of the registered dissector entry point, with the
process-wide state threaded explicitly: no code reachable from
`dissect_negoex` reads or writes the file-scope global, so the invocation
is a function of the buffer alone and the state passes through unchanged. -/
def dissect_negoex_invoke (g : GlobalOidState) (t : Tvb) :
    (List Field × Nat) × GlobalOidState := (dissect_negoex t, g)

/-- A sequence of entry-point invocations on successive buffers, each one
seeing the process state left behind by the previous one. -/
def dissect_negoex_session (g : GlobalOidState) : List Tvb → List (List Field × Nat)
  | [] => []
  | t :: ts =>
    (dissect_negoex_invoke g t).1 ::
      dissect_negoex_session (dissect_negoex_invoke g t).2 ts

/-! ### Concrete buffers used by witnesses and counterexamples -/

/-- The 8-byte `NEGOEXTS` signature. -/
def sigB : List Nat := [78, 69, 71, 79, 69, 88, 84, 83]

/-- Little-endian 4-byte encoding. -/
def w32 (n : Nat) : List Nat :=
  [n % 256, n / 256 % 256, n / 65536 % 256, n / 16777216 % 256]

/-- Little-endian 2-byte encoding. -/
def w16 (n : Nat) : List Nat := [n % 256, n / 256 % 256]

/-- An all-zero conversation id. -/
def conv16 : List Nat := List.replicate 16 0

/-- A complete, valid ALERT message (type 7, 60 bytes): header, AuthScheme,
error code, empty trailer. -/
def alertMsg : List Nat :=
  sigB ++ w32 7 ++ w32 0 ++ w32 40 ++ w32 60 ++ conv16 ++
    List.replicate 16 9 ++ w32 5

/-- A minimal valid Nego message (96 bytes): empty AuthScheme and extension
vectors. -/
def negoMsg : List Nat :=
  sigB ++ w32 0 ++ w32 0 ++ w32 40 ++ w32 96 ++ conv16 ++
    List.replicate 32 1 ++ List.replicate 8 2 ++
    w32 0 ++ w16 0 ++ [0, 0] ++ w32 0 ++ w16 0 ++ [0, 0]

/-- Three back-to-back valid Nego messages (C7 scenario). -/
def threeNego : List Nat := negoMsg ++ negoMsg ++ negoMsg

/-- Exchange message (68 bytes) whose exchange vector references offset 66
(bytes `60 00`, a BER APPLICATION/constructed/tag-0 identifier), while the
bytes at the peek position 64 are `04 00` (universal, primitive, tag 4). -/
def cex1 : List Nat :=
  sigB ++ w32 2 ++ w32 0 ++ w32 40 ++ w32 68 ++ conv16 ++
    List.replicate 16 9 ++ w32 66 ++ w16 2 ++ [0, 0] ++ [4, 0] ++ [96, 0]

/-- Exchange message (68 bytes) whose exchange vector references offset 66
(bytes `60 00`), while the bytes at the peek position 64 are `30 00` — the
spec's "span begins with 0x30" scenario placed at the referenced offset. -/
def cex2 : List Nat :=
  sigB ++ w32 2 ++ w32 0 ++ w32 40 ++ w32 68 ++ conv16 ++
    List.replicate 16 9 ++ w32 66 ++ w16 2 ++ [0, 0] ++ [48, 0] ++ [96, 0]

/-- Exchange message (76 bytes) taking the PKU2U path: at the peek position
64 an APPLICATION/constructed/tag-0 TLV (`60 0a`), an OID TLV (`06 03 ...`),
an ANY TLV (`01 01 ff`), then two marker bytes at offset 74. -/
def cexDel : List Nat :=
  sigB ++ w32 2 ++ w32 0 ++ w32 40 ++ w32 76 ++ conv16 ++
    List.replicate 16 9 ++ w32 64 ++ w16 12 ++ [0, 0] ++
    [96, 10, 6, 3, 10, 11, 12, 1, 1, 255] ++ [170, 187]

/-- A 40-byte buffer holding a single valid header of type 0 whose
`message_length` field is 0. -/
def cex3 : List Nat := sigB ++ w32 0 ++ w32 0 ++ w32 40 ++ w32 0 ++ conv16

/-- A message of unknown type 99 (claiming a plausible `message_length` of
40) followed by a complete valid ALERT message at offset 40. -/
def cex4 : List Nat :=
  (sigB ++ w32 99 ++ w32 0 ++ w32 40 ++ w32 40 ++ conv16) ++ alertMsg

/-- A 20-byte buffer: the signature, message type 0, and eight further
bytes — fewer than the 40 bytes a fixed header needs. -/
def cex5 : List Nat := sigB ++ w32 0 ++ [0, 0, 0, 0, 0, 0, 0, 0]

/-- A VERIFY message (76 bytes) whose checksum vector references offset 200
with count 4, running past the buffer. -/
def verifyOob : List Nat :=
  sigB ++ w32 6 ++ w32 0 ++ w32 40 ++ w32 76 ++ conv16 ++
    List.replicate 16 9 ++ w32 20 ++ w32 1 ++ w32 16 ++ w32 200 ++ w16 4 ++ [0, 0]

/-- The out-of-bounds VERIFY message followed by a complete valid ALERT
message (136 bytes total). -/
def cex6 : List Nat := verifyOob ++ alertMsg

/-- A Nego message (96 bytes) whose AuthScheme vector has count 1 and
referenced offset 200, so its span runs past the buffer. -/
def cex8 : List Nat :=
  sigB ++ w32 0 ++ w32 0 ++ w32 40 ++ w32 96 ++ conv16 ++
    List.replicate 32 1 ++ List.replicate 8 2 ++
    w32 200 ++ w16 1 ++ [0, 0] ++ w32 0 ++ w16 0 ++ [0, 0]


/-! ## Reduction lemmas for the monad and the read primitives -/

@[simp] theorem ERes_bind_eq (x : ERes α) (f : α → ERes β) :
    x >>= f = ERes.seq x f := rfl

@[simp] theorem ERes_seq_ok (es : List Field) (a : α) (f : α → ERes β) :
    ERes.seq ⟨es, .ok a⟩ f = ⟨es ++ (f a).emits, (f a).res⟩ := rfl

@[simp] theorem ERes_seq_error (es : List Field) (e : DErr) (f : α → ERes β) :
    ERes.seq ⟨es, .error e⟩ f = ⟨es, .error e⟩ := rfl

@[simp] theorem ERes_pure_eq (a : α) : (pure a : ERes α) = ⟨[], .ok a⟩ := rfl

@[simp] theorem liftE_ok (a : α) : liftE (.ok a) = (⟨[], .ok a⟩ : ERes α) := rfl

@[simp] theorem liftE_error (e : DErr) : liftE (.error e) = (⟨[], .error e⟩ : ERes α) := rfl

@[simp] theorem emitF_eq (f : Field) : emitF f = ⟨[f], .ok ()⟩ := rfl

@[simp] theorem addItem_ok {t : Tvb} {off len : Nat} (h : off + len ≤ t.data.length)
    (hf : HF) : addItem t hf off len = ⟨[.item hf off len], .ok ()⟩ := by
  simp [addItem, h]

@[simp] theorem addItem_err {t : Tvb} {off len : Nat} (h : t.data.length < off + len)
    (hf : HF) : addItem t hf off len = ⟨[], .error .outOfBounds⟩ := by
  simp [addItem, Nat.not_le.mpr h]

@[simp] theorem getLetohl_ok {t : Tvb} {off : Nat} (h : off + 4 ≤ t.data.length) :
    getLetohl t off = .ok (le32val t off) := by
  simp [getLetohl, h]

@[simp] theorem getLetohl_err {t : Tvb} {off : Nat} (h : t.data.length < off + 4) :
    getLetohl t off = .error .outOfBounds := by
  simp [getLetohl, Nat.not_le.mpr h]

@[simp] theorem getLetohs_ok {t : Tvb} {off : Nat} (h : off + 2 ≤ t.data.length) :
    getLetohs t off = .ok (le16val t off) := by
  simp [getLetohs, h]

@[simp] theorem getLetohs_err {t : Tvb} {off : Nat} (h : t.data.length < off + 2) :
    getLetohs t off = .error .outOfBounds := by
  simp [getLetohs, Nat.not_le.mpr h]

/-- Sequencing when the first step's outcome is known to succeed. -/
theorem ERes_seq_of_res_ok {α β : Type} {x : ERes α} {a : α} (h : x.res = .ok a)
    (f : α → ERes β) : ERes.seq x f = ⟨x.emits ++ (f a).emits, (f a).res⟩ := by
  unfold ERes.seq; rw [h]

/-- Sequencing when the first step's outcome is known to fail. -/
theorem ERes_seq_of_res_error {α β : Type} {x : ERes α} {e : DErr} (h : x.res = .error e)
    (f : α → ERes β) : ERes.seq x f = ⟨x.emits, .error e⟩ := by
  unfold ERes.seq; rw [h]

/-- Captured bytes are octets. -/
theorem byteAt_lt (t : Tvb) (i : Nat) : byteAt t i < 256 :=
  Nat.mod_lt _ (by norm_num)

/-- A 4-byte little-endian value fits in a `guint32`. -/
theorem le32val_lt (t : Tvb) (off : Nat) : le32val t off < u32 := by
  have h0 := byteAt_lt t off
  have h1 := byteAt_lt t (off + 1)
  have h2 := byteAt_lt t (off + 2)
  have h3 := byteAt_lt t (off + 3)
  unfold le32val u32
  omega

/-! ## Shapes of one loop iteration -/

/-- With the whole fixed header in bounds and a known message type, one
iteration emits the header fields, runs the body on the per-message
sub-tvb, and on success advances by `message_len` (mod 2^32). -/
theorem msgStep_eq_known (t : Tvb) (off : Nat)
    (hb : off + 40 ≤ t.data.length) (hty : le32val t (off + 8) ≤ 7)
    (hsub : off + min (le32val t (off + 20)) t.data.length ≤ t.data.length) :
    msgStep t off =
      ⟨hdrEmits t off ++ (bodyOf t off).emits,
       match (bodyOf t off).res with
       | .error e => .error e
       | .ok _ => .ok ((off + le32val t (off + 20)) % u32)⟩ := by
  cases hB : (bodyOf t off).res with
  | error e =>
    rw [msgStep]
    rw [bodyOf, subTvbOf] at hB
    simp [getLetohl_ok (by omega : off + 8 + 4 ≤ t.data.length),
      getLetohl_ok (by omega : off + 16 + 4 ≤ t.data.length),
      getLetohl_ok (by omega : off + 20 + 4 ≤ t.data.length),
      addItem, if_pos (by omega : off + 8 ≤ t.data.length),
      if_pos (by omega : off + 12 + 4 ≤ t.data.length),
      if_pos (by omega : off + 24 + 16 ≤ t.data.length),
      if_neg (by omega : ¬ le32val t (off + 8) > 7),
      tvbSubset, if_pos hsub,
      ERes_seq_of_res_error hB, hdrEmits, bodyOf, subTvbOf,
      decide_eq_true (by omega : le32val t (off + 8) ≤ 7)]
  | ok u =>
    rw [msgStep]
    rw [bodyOf, subTvbOf] at hB
    simp [getLetohl_ok (by omega : off + 8 + 4 ≤ t.data.length),
      getLetohl_ok (by omega : off + 16 + 4 ≤ t.data.length),
      getLetohl_ok (by omega : off + 20 + 4 ≤ t.data.length),
      addItem, if_pos (by omega : off + 8 ≤ t.data.length),
      if_pos (by omega : off + 12 + 4 ≤ t.data.length),
      if_pos (by omega : off + 24 + 16 ≤ t.data.length),
      if_neg (by omega : ¬ le32val t (off + 8) > 7),
      tvbSubset, if_pos hsub,
      ERes_seq_of_res_ok hB, hdrEmits, bodyOf, subTvbOf,
      decide_eq_true (by omega : le32val t (off + 8) ≤ 7)]

/-- An unknown message type punts: only the signature and the raw type are
emitted, and the iteration returns the end-of-payload offset. -/
theorem msgStep_eq_punt (t : Tvb) (off : Nat)
    (hb : off + 12 ≤ t.data.length) (hty : 7 < le32val t (off + 8)) :
    msgStep t off =
      ⟨[.msgTree false (le32val t (off + 8)) off, .sub .header off 0 0,
        .item .sig off 8, .colInfo false (le32val t (off + 8)),
        .uint .messageType (off + 8) 4 (le32val t (off + 8))],
       .ok t.reported⟩ := by
  rw [msgStep]
  simp [getLetohl_ok (by omega : off + 8 + 4 ≤ t.data.length),
    addItem, if_pos (by omega : off + 8 ≤ t.data.length),
    if_pos (by omega : le32val t (off + 8) > 7),
    decide_eq_false (by omega : ¬ le32val t (off + 8) ≤ 7)]

/-- Fewer than 12 bytes of captured data: the very first read of the
iteration (the message type at `off + 8`) goes out of bounds. -/
theorem msgStep_res_short_read (t : Tvb) (off : Nat)
    (hb : t.data.length < off + 12) :
    (msgStep t off).res = .error .outOfBounds := by
  rw [msgStep]
  simp [getLetohl_err (by omega : t.data.length < off + 8 + 4)]

/-- A known-type header that does not fit in the remaining captured bytes
fails with an out-of-bounds error at one of its fixed-header reads. -/
theorem msgStep_res_short_header (t : Tvb) (off : Nat)
    (hb : off + 12 ≤ t.data.length) (hty : le32val t (off + 8) ≤ 7)
    (hshort : t.data.length < off + 40) :
    (msgStep t off).res = .error .outOfBounds := by
  rw [msgStep]
  by_cases h16 : off + 12 + 4 ≤ t.data.length
  case neg =>
    simp [getLetohl_ok (by omega : off + 8 + 4 ≤ t.data.length),
      addItem, if_pos (by omega : off + 8 ≤ t.data.length),
      if_neg (by omega : ¬ le32val t (off + 8) > 7), if_neg h16]
  case pos =>
  by_cases h20 : off + 16 + 4 ≤ t.data.length
  case neg =>
    simp [getLetohl_ok (by omega : off + 8 + 4 ≤ t.data.length),
      addItem, if_pos (by omega : off + 8 ≤ t.data.length),
      if_neg (by omega : ¬ le32val t (off + 8) > 7), if_pos h16,
      getLetohl_err (by omega : t.data.length < off + 16 + 4)]
  case pos =>
  by_cases h24 : off + 20 + 4 ≤ t.data.length
  case neg =>
    simp [getLetohl_ok (by omega : off + 8 + 4 ≤ t.data.length),
      addItem, if_pos (by omega : off + 8 ≤ t.data.length),
      if_neg (by omega : ¬ le32val t (off + 8) > 7), if_pos h16,
      getLetohl_ok h20, getLetohl_err (by omega : t.data.length < off + 20 + 4)]
  case pos =>
    simp [getLetohl_ok (by omega : off + 8 + 4 ≤ t.data.length),
      addItem, if_pos (by omega : off + 8 ≤ t.data.length),
      if_neg (by omega : ¬ le32val t (off + 8) > 7), if_pos h16,
      getLetohl_ok h20, getLetohl_ok h24,
      if_neg (by omega : ¬ off + 24 + 16 ≤ t.data.length)]

/-- When the per-message sub-tvb cannot be carved out of the captured data,
the iteration fails at `tvb_new_subset_length_caplen`. -/
theorem msgStep_res_subset_fail (t : Tvb) (off : Nat)
    (hb : off + 40 ≤ t.data.length) (hty : le32val t (off + 8) ≤ 7)
    (hsub : t.data.length < off + min (le32val t (off + 20)) t.data.length) :
    (msgStep t off).res = .error .outOfBounds := by
  rw [msgStep]
  simp [getLetohl_ok (by omega : off + 8 + 4 ≤ t.data.length),
    getLetohl_ok (by omega : off + 16 + 4 ≤ t.data.length),
    getLetohl_ok (by omega : off + 20 + 4 ≤ t.data.length),
    addItem, if_pos (by omega : off + 8 ≤ t.data.length),
    if_pos (by omega : off + 12 + 4 ≤ t.data.length),
    if_pos (by omega : off + 24 + 16 ≤ t.data.length),
    if_neg (by omega : ¬ le32val t (off + 8) > 7),
    tvbSubset, if_neg (by omega : ¬ off + min (le32val t (off + 20)) t.data.length ≤ t.data.length)]

/-! ## First-read bounds of the body decoders -/

/-- A successful Nego body read its 32-byte random field. -/
theorem nego_ok_bound {t : Tvb} {s : Nat} {u : Unit}
    (h : (dissect_negoex_nego_message t s).res = .ok u) : s + 32 ≤ t.data.length := by
  by_contra hc
  push_neg at hc
  simp [dissect_negoex_nego_message, addItem_err hc] at h

/-- A successful Exchange body read its 16-byte AuthScheme. -/
theorem exchange_ok_bound {t : Tvb} {s : Nat} {u : Unit}
    (h : (dissect_negoex_exchange_message t s).res = .ok u) : s + 16 ≤ t.data.length := by
  by_contra hc
  push_neg at hc
  simp [dissect_negoex_exchange_message, addItem_err hc] at h

/-- A successful Verify body read its 16-byte AuthScheme. -/
theorem verify_ok_bound {t : Tvb} {s : Nat} {u : Unit}
    (h : (dissect_negoex_verify_message t s).res = .ok u) : s + 16 ≤ t.data.length := by
  by_contra hc
  push_neg at hc
  simp [dissect_negoex_verify_message, addItem_err hc] at h

/-- A successful Alert body read its 16-byte AuthScheme. -/
theorem alert_ok_bound {t : Tvb} {s : Nat} {u : Unit}
    (h : (dissect_negoex_alert_message t s).res = .ok u) : s + 16 ≤ t.data.length := by
  by_contra hc
  push_neg at hc
  simp [dissect_negoex_alert_message, addItem_err hc] at h

/-- Any successful body decode saw at least 56 bytes in its sub-tvb. -/
theorem bodyDispatch_ok_bound {v : Nat} {mt outer : Tvb} {oOff ml : Nat} {u : Unit}
    (hty : v ≤ 7) (h : (bodyDispatch v mt 40 outer oOff ml).res = .ok u) :
    56 ≤ mt.data.length := by
  interval_cases v
  · exact le_trans (by omega) (nego_ok_bound (s := 40) h)
  · exact le_trans (by omega) (nego_ok_bound (s := 40) h)
  · exact exchange_ok_bound (s := 40) h
  · exact exchange_ok_bound (s := 40) h
  · exact exchange_ok_bound (s := 40) h
  · exact exchange_ok_bound (s := 40) h
  · exact verify_ok_bound (s := 40) h
  · exact alert_ok_bound (s := 40) h

/-- A Nego body on a sub-tvb shorter than its random field fails at once. -/
theorem nego_res_err_of_short {t : Tvb} {s : Nat} (h : t.data.length < s + 32) :
    (dissect_negoex_nego_message t s).res = .error .outOfBounds := by
  simp [dissect_negoex_nego_message, addItem_err h]

/-- An Exchange body on a sub-tvb shorter than its AuthScheme fails at once. -/
theorem exchange_res_err_of_short {t : Tvb} {s : Nat} (h : t.data.length < s + 16) :
    (dissect_negoex_exchange_message t s).res = .error .outOfBounds := by
  simp [dissect_negoex_exchange_message, addItem_err h]

/-- A Verify body on a sub-tvb shorter than its AuthScheme fails at once. -/
theorem verify_res_err_of_short {t : Tvb} {s : Nat} (h : t.data.length < s + 16) :
    (dissect_negoex_verify_message t s).res = .error .outOfBounds := by
  simp [dissect_negoex_verify_message, addItem_err h]

/-- An Alert body on a sub-tvb shorter than its AuthScheme fails at once. -/
theorem alert_res_err_of_short {t : Tvb} {s : Nat} (h : t.data.length < s + 16) :
    (dissect_negoex_alert_message t s).res = .error .outOfBounds := by
  simp [dissect_negoex_alert_message, addItem_err h]

/-- Every known-type body decode fails on a sub-tvb shorter than 56 bytes. -/
theorem bodyDispatch_res_err_of_short {v : Nat} {mt outer : Tvb} {oOff ml : Nat}
    (hty : v ≤ 7) (hlen : mt.data.length < 56) :
    (bodyDispatch v mt 40 outer oOff ml).res = .error .outOfBounds := by
  interval_cases v
  · exact nego_res_err_of_short (by omega)
  · exact nego_res_err_of_short (by omega)
  · exact exchange_res_err_of_short (by omega)
  · exact exchange_res_err_of_short (by omega)
  · exact exchange_res_err_of_short (by omega)
  · exact exchange_res_err_of_short (by omega)
  · exact verify_res_err_of_short (by omega)
  · exact alert_res_err_of_short (by omega)

/-- A zero `message_len` yields an empty per-message sub-tvb, so the body
decode fails immediately and the iteration ends in an error. -/
theorem msgStep_res_err_of_mlen_zero (t : Tvb) (off : Nat)
    (hb : off + 40 ≤ t.data.length) (hty : le32val t (off + 8) ≤ 7)
    (hml : le32val t (off + 20) = 0) :
    (msgStep t off).res = .error .outOfBounds := by
  rw [msgStep_eq_known t off hb hty (by rw [hml]; simp; omega)]
  have hB : (bodyOf t off).res = .error .outOfBounds := by
    apply bodyDispatch_res_err_of_short hty
    simp [subTvbOf, hml]
  simp [hB]

/-- A successful iteration either punts to the end of the payload or
strictly advances the offset: the advance is `message_len ≥ 56` and the
`guint32` addition cannot wrap, because the sub-tvb carve-out already
bounded `off + min(message_len, captured)` by the captured length. -/
theorem msgStep_ok_cases {t : Tvb} {off next : Nat} (hcap : t.data.length < u32)
    (h : (msgStep t off).res = .ok next) : next = t.reported ∨ off < next := by
  by_cases h12 : off + 12 ≤ t.data.length
  case neg =>
    rw [msgStep_res_short_read t off (by omega)] at h
    exact absurd h (by simp)
  case pos =>
  by_cases hty : le32val t (off + 8) ≤ 7
  case neg =>
    left
    rw [msgStep_eq_punt t off h12 (by omega)] at h
    simpa using h.symm
  case pos =>
  by_cases h40 : off + 40 ≤ t.data.length
  case neg =>
    rw [msgStep_res_short_header t off h12 hty (by omega)] at h
    exact absurd h (by simp)
  case pos =>
  by_cases hsub : off + min (le32val t (off + 20)) t.data.length ≤ t.data.length
  case neg =>
    rw [msgStep_res_subset_fail t off h40 hty (by omega)] at h
    exact absurd h (by simp)
  case pos =>
  rw [msgStep_eq_known t off h40 hty hsub] at h
  simp only at h
  cases hB : (bodyOf t off).res with
  | error e =>
    rw [hB] at h
    exact absurd h (by simp)
  | ok u =>
    rw [hB] at h
    right
    rw [bodyOf] at hB
    have h56 := bodyDispatch_ok_bound hty hB
    have hlen : (subTvbOf t off).data.length =
        min (min (le32val t (off + 20)) t.data.length) (t.data.length - off) := by
      simp [subTvbOf]
    rw [hlen] at h56
    have hml := le32val_lt t (off + 20)
    have hnext : next = (off + le32val t (off + 20)) % u32 := by
      cases h
      rfl
    subst hnext
    unfold u32 at hcap hml ⊢
    omega

/-! ## The stream loop -/

/-- The loop emits nothing once the offset reaches the reported length. -/
theorem negoexLoop_at_end {t : Tvb} {off : Nat} (h : t.reported ≤ off) :
    ∀ f, negoexLoop t f off = [] := by
  intro f
  cases f with
  | zero => rfl
  | succ n => simp [negoexLoop, Nat.not_lt.mpr h]

/-- A failing iteration keeps its partial emissions, adds the exception
marker, and stops the loop (the `CATCH_NONFATAL_ERRORS` arm). -/
theorem negoexLoop_step_error {t : Tvb} {off : Nat} {e : DErr}
    (ho : off < t.reported) (h : (msgStep t off).res = .error e) (f : Nat) :
    negoexLoop t (f + 1) off = (msgStep t off).emits ++ [Field.exception] := by
  simp only [negoexLoop, if_pos ho]
  split
  · rfl
  · rename_i next hok
    rw [h] at hok
    exact absurd hok (by simp)

/-- A successful iteration contributes its emissions and the loop continues
at the returned offset. -/
theorem negoexLoop_step_ok {t : Tvb} {off next : Nat}
    (ho : off < t.reported) (h : (msgStep t off).res = .ok next) (f : Nat) :
    negoexLoop t (f + 1) off = (msgStep t off).emits ++ negoexLoop t f next := by
  simp only [negoexLoop, if_pos ho]
  split
  · rename_i e herr
    rw [h] at herr
    exact absurd herr (by simp)
  · rename_i n hok
    rw [h] at hok
    cases hok
    rfl

/-- Fuel beyond `reported - off` does not change the loop's output: every
iteration either stops or strictly advances, so the loop terminates. -/
theorem negoexLoop_fuel_stable (t : Tvb) (hcap : t.data.length < u32) :
    ∀ f off, t.reported - off < f → negoexLoop t (f + 1) off = negoexLoop t f off := by
  intro f
  induction f with
  | zero => intro off h; omega
  | succ n ih =>
    intro off h
    by_cases ho : off < t.reported
    case neg =>
      rw [negoexLoop_at_end (by omega), negoexLoop_at_end (by omega)]
    case pos =>
    cases hr : (msgStep t off).res with
    | error e =>
      rw [negoexLoop_step_error ho hr, negoexLoop_step_error ho hr]
    | ok next =>
      rw [negoexLoop_step_ok ho hr, negoexLoop_step_ok ho hr]
      congr 1
      apply ih
      rcases msgStep_ok_cases hcap hr with h1 | h1 <;> omega

/-- Any fuel of at least `reported + 1` computes the same full run as the
canonical fuel used by `dissect_negoex`. -/
theorem negoexLoop_fuel_ge (t : Tvb) (hcap : t.data.length < u32) :
    ∀ f, t.reported + 1 ≤ f → negoexLoop t f 0 = negoexLoop t (t.reported + 1) 0 := by
  intro f
  induction f with
  | zero => intro h; omega
  | succ n ih =>
    intro h
    rcases Nat.lt_or_ge n (t.reported + 1) with h1 | h1
    · have : n = t.reported := by omega
      subst this
      rfl
    · rw [negoexLoop_fuel_stable t hcap n 0 (by omega)]
      exact ih h1

/-! ## Body-level shapes used by the exchange and vector claims -/

/-- A vector-element loop whose first element already fails produces the
failure with no emissions. -/
theorem forRange_err_first {f : Nat → ERes Unit} {e : DErr}
    (hf : f 0 = ⟨[], .error e⟩) : ∀ k, 1 ≤ k → forRange k f = ⟨[], .error e⟩ := by
  intro k
  induction k with
  | zero => intro h; omega
  | succ n ih =>
    intro _
    rcases Nat.eq_zero_or_pos n with h0 | h0
    · subst h0
      show ERes.seq (forRange 0 f) (fun _ => f 0) = _
      simp [forRange, hf]
    · show ERes.seq (forRange n f) (fun _ => f n) = _
      rw [ih h0]
      simp

/-- Exchange body, opaque branch: when the BER identifier read at the peek
position `s + 24` is not APPLICATION/constructed/tag 0, the referenced span
is emitted as opaque exchange bytes and no delegate call happens. -/
theorem exchange_opaque_eq {t : Tvb} {s : Nat} {c : BerClass} {p : Bool}
    {g o1 l1 o2 : Nat} {i1 : Bool}
    (hb : s + 24 ≤ t.data.length)
    (hid : get_ber_identifier t (s + 24) = .ok (c, p, g, o1))
    (hl1 : get_ber_length t o1 = .ok (l1, i1, o2))
    (hbr : ¬(c = .application ∧ p = true ∧ g = 0))
    (hspan : le32val t (s + 16) + le16val t (s + 20) ≤ t.data.length) :
    dissect_negoex_exchange_message t s =
      ⟨[.item .authscheme s 16,
        .sub .exchange (s + 16) (le16val t (s + 20)) (le32val t (s + 16)),
        .item .exchVecOffset (s + 16) 4, .item .exchVecCount (s + 20) 2,
        .item .exchVecPad (s + 22) 2,
        .item .exchange (le32val t (s + 16)) (le16val t (s + 20))], .ok ()⟩ := by
  rw [dissect_negoex_exchange_message]
  simp [getLetohl_ok (by omega : s + 16 + 4 ≤ t.data.length),
    getLetohs_ok (by omega : s + 20 + 2 ≤ t.data.length),
    addItem, if_pos (by omega : s + 16 ≤ t.data.length),
    if_pos (by omega : s + 20 + 2 ≤ t.data.length),
    if_pos (by omega : s + 22 + 2 ≤ t.data.length),
    if_pos (by omega : s + 16 + 4 ≤ t.data.length),
    hid, hl1, if_neg hbr, if_pos hspan]

/-- Exchange body, PKU2U branch: an APPLICATION/constructed/tag-0 identifier
at the peek position makes the decoder consume that outer identifier and
length, skip two inner TLVs by their declared lengths, and invoke the
external Kerberos/PKU2U dissector at the offset after the second TLV. -/
theorem exchange_delegate_eq {t : Tvb} {s o1 l1 o2 : Nat} {i1 : Bool}
    {c2 : BerClass} {p2 : Bool} {g2 o3 l2 o4 : Nat} {i2 : Bool}
    {c3 : BerClass} {p3 : Bool} {g3 o5 l3 o6 : Nat} {i3 : Bool}
    (hb : s + 24 ≤ t.data.length)
    (hid : get_ber_identifier t (s + 24) = .ok (.application, true, 0, o1))
    (hl1 : get_ber_length t o1 = .ok (l1, i1, o2))
    (hid2 : get_ber_identifier t o2 = .ok (c2, p2, g2, o3))
    (hl2 : get_ber_length t o3 = .ok (l2, i2, o4))
    (hid3 : get_ber_identifier t ((o4 + l2) % u32) = .ok (c3, p3, g3, o5))
    (hl3 : get_ber_length t o5 = .ok (l3, i3, o6)) :
    dissect_negoex_exchange_message t s =
      ⟨[.item .authscheme s 16,
        .sub .exchange (s + 16) (le16val t (s + 20)) (le32val t (s + 16)),
        .item .exchVecOffset (s + 16) 4, .item .exchVecCount (s + 20) 2,
        .item .exchVecPad (s + 22) 2,
        .sub .pku2u ((o6 + l3) % u32) 0 0,
        .delegate ((o6 + l3) % u32)], .ok ()⟩ := by
  rw [dissect_negoex_exchange_message]
  simp [getLetohl_ok (by omega : s + 16 + 4 ≤ t.data.length),
    getLetohs_ok (by omega : s + 20 + 2 ≤ t.data.length),
    addItem, if_pos (by omega : s + 16 ≤ t.data.length),
    if_pos (by omega : s + 20 + 2 ≤ t.data.length),
    if_pos (by omega : s + 22 + 2 ≤ t.data.length),
    if_pos (by omega : s + 16 + 4 ≤ t.data.length),
    hid, hl1, hid2, hl2, hid3, hl3]

/-- Nego body with an out-of-range AuthScheme vector: the fields before the
vector remain emitted, the first element's read throws, and nothing after
the vector (in particular no extension field) is emitted. -/
theorem nego_vector_oob_eq {t : Tvb} {s : Nat}
    (hb : s + 48 ≤ t.data.length)
    (hcnt : 1 ≤ le16val t (s + 44))
    (hoob : t.data.length < le32val t (s + 40) + 16) :
    dissect_negoex_nego_message t s =
      ⟨[.item .random s 32, .item .protoVersion (s + 32) 8,
        .sub .authschemes (s + 40) (le16val t (s + 44)) (le32val t (s + 40)),
        .item .asVecOffset (s + 40) 4, .item .asVecCount (s + 44) 2,
        .item .asVecPad (s + 46) 2], .error .outOfBounds⟩ := by
  rw [dissect_negoex_nego_message]
  have ha1 : addItem t .random s 32 = ⟨[.item .random s 32], .ok ()⟩ :=
    addItem_ok (by omega) _
  have ha2 : addItem t .protoVersion (s + 32) 8 =
      ⟨[.item .protoVersion (s + 32) 8], .ok ()⟩ := addItem_ok (by omega) _
  have ha3 : addItem t .asVecOffset (s + 40) 4 =
      ⟨[.item .asVecOffset (s + 40) 4], .ok ()⟩ := addItem_ok (by omega) _
  have ha4 : addItem t .asVecCount (s + 44) 2 =
      ⟨[.item .asVecCount (s + 44) 2], .ok ()⟩ := addItem_ok (by omega) _
  have ha5 : addItem t .asVecPad (s + 46) 2 =
      ⟨[.item .asVecPad (s + 46) 2], .ok ()⟩ := addItem_ok (by omega) _
  have hloop : forRange (le16val t (s + 44))
      (fun i => addItem t .authscheme (le32val t (s + 40) + i * 16) 16) =
      ⟨[], .error .outOfBounds⟩ := by
    apply forRange_err_first _ _ hcnt
    exact addItem_err (by omega) _
  simp [getLetohl_ok (by omega : s + 40 + 4 ≤ t.data.length),
    getLetohs_ok (by omega : s + 44 + 2 ≤ t.data.length),
    ha1, ha2, ha3, ha4, ha5, hloop]

/-- Verify body with an out-of-range checksum vector: every field before
the checksum bytes stays emitted and the final read throws. -/
theorem verify_vector_oob_eq {t : Tvb} {s : Nat}
    (hb : s + 36 ≤ t.data.length)
    (hoob : t.data.length < le32val t (s + 28) + le16val t (s + 32)) :
    dissect_negoex_verify_message t s =
      ⟨[.item .authscheme s 16, .sub .checksum (s + 16) 0 0,
        .item .headerLen (s + 16) 4, .item .checksumScheme (s + 20) 4,
        .item .checksumType (s + 24) 4,
        .sub .checksumVector (s + 28) (le16val t (s + 32)) (le32val t (s + 28)),
        .item .cvOffset (s + 28) 4, .item .cvCount (s + 32) 2,
        .item .cvPad (s + 34) 2], .error .outOfBounds⟩ := by
  rw [dissect_negoex_verify_message]
  simp [getLetohl_ok (by omega : s + 28 + 4 ≤ t.data.length),
    getLetohs_ok (by omega : s + 32 + 2 ≤ t.data.length),
    addItem, if_pos (by omega : s + 16 ≤ t.data.length),
    if_pos (by omega : s + 16 + 4 ≤ t.data.length),
    if_pos (by omega : s + 20 + 4 ≤ t.data.length),
    if_pos (by omega : s + 24 + 4 ≤ t.data.length),
    if_pos (by omega : s + 28 + 4 ≤ t.data.length),
    if_pos (by omega : s + 32 + 2 ≤ t.data.length),
    if_pos (by omega : s + 34 + 2 ≤ t.data.length),
    if_neg (by omega : ¬ le32val t (s + 28) + le16val t (s + 32) ≤ t.data.length)]

/-! ## Claims -/

/-- C1, counterexample: in `cex1` the exchange byte-vector references
offset 66, where the BER identifier is `{class=Application, constructed,
tag=0}`, yet the message is emitted as opaque exchange bytes with no
delegate call — the decoder peeked at the fixed position 64 (right after
the vector descriptor), not at the start of the referenced span, so the
claimed "if and only if" on the referenced span's identifier fails. -/
theorem exchange_span_identifier_ignored_cex :
    get_ber_identifier (mkTvb cex1) 66 = .ok (.application, true, 0, 67) ∧
    dissect_negoex_exchange_message (mkTvb cex1) 40 =
      ⟨[.item .authscheme 40 16, .sub .exchange 56 2 66,
        .item .exchVecOffset 56 4, .item .exchVecCount 60 2,
        .item .exchVecPad 62 2, .item .exchange 66 2], .ok ()⟩ := by
  constructor
  · decide
  · decide

/-- C1, amended: the decoder reads the BER identifier at the fixed position
immediately after the exchange vector descriptor (`start + 24`, i.e.
message offset 64), not at the referenced span.  If that identifier is not
APPLICATION/constructed/tag 0 (in particular when the byte there is 0x30),
the declared `count` bytes at the declared referenced offset are emitted as
opaque exchange bytes; if it is, the PKU2U delegate path is taken. -/
theorem exchange_peek_after_descriptor :
    (∀ (t : Tvb) (s : Nat) (c : BerClass) (p i1 : Bool) (g o1 l1 o2 : Nat),
      s + 24 ≤ t.data.length →
      get_ber_identifier t (s + 24) = .ok (c, p, g, o1) →
      get_ber_length t o1 = .ok (l1, i1, o2) →
      ¬(c = .application ∧ p = true ∧ g = 0) →
      le32val t (s + 16) + le16val t (s + 20) ≤ t.data.length →
      dissect_negoex_exchange_message t s =
        ⟨[.item .authscheme s 16,
          .sub .exchange (s + 16) (le16val t (s + 20)) (le32val t (s + 16)),
          .item .exchVecOffset (s + 16) 4, .item .exchVecCount (s + 20) 2,
          .item .exchVecPad (s + 22) 2,
          .item .exchange (le32val t (s + 16)) (le16val t (s + 20))], .ok ()⟩) ∧
    (∀ (t : Tvb) (s o1 l1 o2 : Nat) (i1 : Bool) (c2 : BerClass) (p2 i2 : Bool)
       (g2 o3 l2 o4 : Nat) (c3 : BerClass) (p3 i3 : Bool) (g3 o5 l3 o6 : Nat),
      s + 24 ≤ t.data.length →
      get_ber_identifier t (s + 24) = .ok (.application, true, 0, o1) →
      get_ber_length t o1 = .ok (l1, i1, o2) →
      get_ber_identifier t o2 = .ok (c2, p2, g2, o3) →
      get_ber_length t o3 = .ok (l2, i2, o4) →
      get_ber_identifier t ((o4 + l2) % u32) = .ok (c3, p3, g3, o5) →
      get_ber_length t o5 = .ok (l3, i3, o6) →
      ∃ d, dissect_negoex_exchange_message t s =
        ⟨[.item .authscheme s 16,
          .sub .exchange (s + 16) (le16val t (s + 20)) (le32val t (s + 16)),
          .item .exchVecOffset (s + 16) 4, .item .exchVecCount (s + 20) 2,
          .item .exchVecPad (s + 22) 2,
          .sub .pku2u d 0 0, .delegate d], .ok ()⟩) := by
  constructor
  · intro t s c p i1 g o1 l1 o2 hb hid hl1 hbr hspan
    exact exchange_opaque_eq hb hid hl1 hbr hspan
  · intro t s o1 l1 o2 i1 c2 p2 i2 g2 o3 l2 o4 c3 p3 i3 g3 o5 l3 o6
      hb hid hl1 hid2 hl2 hid3 hl3
    exact ⟨(o6 + l3) % u32, exchange_delegate_eq hb hid hl1 hid2 hl2 hid3 hl3⟩

/-- C1, witness: the opaque branch at `cex2` (peek byte 0x30) and the
delegate branch at `cexDel` (peek byte 0x60), both by direct application of
the amended theorem. -/
theorem exchange_peek_after_descriptor_witness :
    dissect_negoex_exchange_message (mkTvb cex2) 40 =
      ⟨[.item .authscheme 40 16, .sub .exchange 56 2 66,
        .item .exchVecOffset 56 4, .item .exchVecCount 60 2,
        .item .exchVecPad 62 2, .item .exchange 66 2], .ok ()⟩ ∧
    (∃ d, dissect_negoex_exchange_message (mkTvb cexDel) 40 =
      ⟨[.item .authscheme 40 16, .sub .exchange 56 12 64,
        .item .exchVecOffset 56 4, .item .exchVecCount 60 2,
        .item .exchVecPad 62 2,
        .sub .pku2u d 0 0, .delegate d], .ok ()⟩) := by
  constructor
  · exact exchange_peek_after_descriptor.1 (mkTvb cex2) 40 .universal true false 16 65 0 66
      (by decide) (by decide) (by decide) (by decide) (by decide)
  · exact exchange_peek_after_descriptor.2 (mkTvb cexDel) 40 65 10 66 false
      .universal false false 6 67 3 68 .universal false false 1 72 1 73
      (by decide) (by decide) (by decide) (by decide) (by decide) (by decide) (by decide)

/-- C2, counterexample: in `cex2` the referenced span (offset 66) starts
with an APPLICATION/constructed/tag-0 identifier, yet the decoder does not
consume it, skips no TLVs and invokes no delegate — it emits the span as
opaque bytes, because the peek happened at position 64 instead. -/
theorem span_app_tag_not_consumed_cex :
    get_ber_identifier (mkTvb cex2) 66 = .ok (.application, true, 0, 67) ∧
    dissect_negoex_exchange_message (mkTvb cex2) 40 =
      ⟨[.item .authscheme 40 16, .sub .exchange 56 2 66,
        .item .exchVecOffset 56 4, .item .exchVecCount 60 2,
        .item .exchVecPad 62 2, .item .exchange 66 2], .ok ()⟩ := by
  constructor
  · decide
  · decide

/-- C2, amended: when the BER identifier read at the position immediately
after the vector descriptor (`start + 24`) is APPLICATION/constructed/tag 0,
the decoder consumes that outer identifier and length, skips exactly two
inner TLVs (reading each identifier and length and advancing by the
length), and invokes the external PKU2U/Kerberos decoder at the offset
immediately after the second skipped TLV. -/
theorem pku2u_skip_two_tlvs_delegate_offset :
    ∀ (t : Tvb) (s o1 l1 o2 : Nat) (i1 : Bool) (c2 : BerClass) (p2 i2 : Bool)
      (g2 o3 l2 o4 : Nat) (c3 : BerClass) (p3 i3 : Bool) (g3 o5 l3 o6 : Nat),
      s + 24 ≤ t.data.length →
      get_ber_identifier t (s + 24) = .ok (.application, true, 0, o1) →
      get_ber_length t o1 = .ok (l1, i1, o2) →
      get_ber_identifier t o2 = .ok (c2, p2, g2, o3) →
      get_ber_length t o3 = .ok (l2, i2, o4) →
      get_ber_identifier t ((o4 + l2) % u32) = .ok (c3, p3, g3, o5) →
      get_ber_length t o5 = .ok (l3, i3, o6) →
      dissect_negoex_exchange_message t s =
        ⟨[.item .authscheme s 16,
          .sub .exchange (s + 16) (le16val t (s + 20)) (le32val t (s + 16)),
          .item .exchVecOffset (s + 16) 4, .item .exchVecCount (s + 20) 2,
          .item .exchVecPad (s + 22) 2,
          .sub .pku2u ((o6 + l3) % u32) 0 0,
          .delegate ((o6 + l3) % u32)], .ok ()⟩ := by
  intro t s o1 l1 o2 i1 c2 p2 i2 g2 o3 l2 o4 c3 p3 i3 g3 o5 l3 o6
    hb hid hl1 hid2 hl2 hid3 hl3
  exact exchange_delegate_eq hb hid hl1 hid2 hl2 hid3 hl3

/-- C2, witness: on `cexDel` the outer TLV header ends at 66, the OID TLV
spans 66-70, the ANY TLV spans 71-73, and the delegate is invoked at 74,
the first byte after the second skipped TLV. -/
theorem pku2u_skip_two_tlvs_delegate_offset_witness :
    dissect_negoex_exchange_message (mkTvb cexDel) 40 =
      ⟨[.item .authscheme 40 16, .sub .exchange 56 12 64,
        .item .exchVecOffset 56 4, .item .exchVecCount 60 2,
        .item .exchVecPad 62 2,
        .sub .pku2u 74 0 0, .delegate 74], .ok ()⟩ := by
  exact pku2u_skip_two_tlvs_delegate_offset (mkTvb cexDel) 40 65 10 66 false
    .universal false false 6 67 3 68 .universal false false 1 72 1 73
    (by decide) (by decide) (by decide) (by decide) (by decide) (by decide) (by decide)

/-- C3: the message stream loop terminates on every input buffer — its
output is stable for any fuel of at least `reported + 1` — and a message
whose `message_length` field is 0 stops the loop immediately with an error
(the empty per-message view makes the body decode throw; the exception is
caught, the marker is emitted last, and no further message is decoded). -/
theorem stream_terminates_and_zero_length_stops :
    (∀ t : Tvb, t.data.length < u32 → ∀ f, t.reported + 1 ≤ f →
      negoexLoop t f 0 = negoexLoop t (t.reported + 1) 0) ∧
    (∀ (t : Tvb) (off f : Nat), off < t.reported → off + 40 ≤ t.data.length →
      le32val t (off + 8) ≤ 7 → le32val t (off + 20) = 0 →
      negoexLoop t (f + 1) off = (msgStep t off).emits ++ [Field.exception]) := by
  constructor
  · intro t hcap f hf
    exact negoexLoop_fuel_ge t hcap f hf
  · intro t off f ho hb hty hml
    exact negoexLoop_step_error ho (msgStep_res_err_of_mlen_zero t off hb hty hml) f

/-- C3, witness: on the 40-byte buffer `cex3` (valid type-0 header with
`message_length` 0) the run is fuel-stable and ends in the exception
marker with nothing after it. -/
theorem stream_terminates_and_zero_length_stops_witness :
    negoexLoop (mkTvb cex3) 45 0 = negoexLoop (mkTvb cex3) 41 0 ∧
    negoexLoop (mkTvb cex3) 11 0 = (msgStep (mkTvb cex3) 0).emits ++ [Field.exception] := by
  constructor
  · exact stream_terminates_and_zero_length_stops.1 (mkTvb cex3) (by decide) 45 (by decide)
  · exact stream_terminates_and_zero_length_stops.2 (mkTvb cex3) 0 10 (by decide)
      (by decide) (by decide) (by decide)

/-- C4, counterexample: in `cex4` a type-99 message with a plausible
`message_length` of 40 is followed by a complete valid ALERT message at
offset 40, but the following message is not decoded (no `msgTree` for it),
the unknown message's header is not decoded past the raw type (no sequence
number item), and the whole run stops after five fields. -/
theorem unknown_type_stops_stream_cex :
    Field.msgTree true 7 40 ∉ (dissect_negoex (mkTvb cex4)).1 ∧
    Field.item .seqNum 12 4 ∉ (dissect_negoex (mkTvb cex4)).1 ∧
    dissect_negoex (mkTvb cex4) =
      ([.protoRoot, .msgTree false 99 0, .sub .header 0 0 0, .item .sig 0 8,
        .colInfo false 99, .uint .messageType 8 4 99], 100) := by
  refine ⟨by decide, by decide, by decide⟩

/-- C4, amended: a message whose raw type exceeds 7 is flagged unknown and
only its signature and raw message type are emitted; the loop then jumps to
the end of the payload — it never advances by `message_length` — so the
remainder of the buffer, including any following valid message, is not
decoded (and no error is reported). -/
theorem unknown_type_punts_to_payload_end :
    ∀ (t : Tvb) (off f : Nat), off < t.reported → off + 12 ≤ t.data.length →
      7 < le32val t (off + 8) →
      negoexLoop t (f + 1) off =
        [.msgTree false (le32val t (off + 8)) off, .sub .header off 0 0,
         .item .sig off 8, .colInfo false (le32val t (off + 8)),
         .uint .messageType (off + 8) 4 (le32val t (off + 8))] := by
  intro t off f ho hb hty
  have hstep := msgStep_eq_punt t off hb hty
  have hres : (msgStep t off).res = .ok t.reported := by rw [hstep]
  rw [negoexLoop_step_ok ho hres f, negoexLoop_at_end (le_refl t.reported) f, hstep]
  simp

/-- C4, witness: the amended theorem applied to `cex4`. -/
theorem unknown_type_punts_to_payload_end_witness :
    negoexLoop (mkTvb cex4) 101 0 =
      [.msgTree false 99 0, .sub .header 0 0 0, .item .sig 0 8,
       .colInfo false 99, .uint .messageType 8 4 99] := by
  exact unknown_type_punts_to_payload_end (mkTvb cex4) 0 100 (by decide) (by decide) (by decide)

/-- C5, counterexample: the 20-byte buffer `cex5` (known message type 0)
does not end cleanly — the loop emits the exception marker raised by the
out-of-bounds `message_length` read, so the claimed error-free `Done` on
buffers shorter than 40 bytes fails. -/
theorem short_buffer_reports_error_cex :
    Field.exception ∈ (dissect_negoex (mkTvb cex5)).1 ∧
    dissect_negoex (mkTvb cex5) =
      ([.protoRoot, .msgTree true 0 0, .sub .header 0 0 0, .item .sig 0 8,
        .colInfo true 0, .uint .messageType 8 4 0, .item .seqNum 12 4,
        .uint .headerLen 16 4 0, .exception], 20) := by
  refine ⟨by decide, by decide⟩

/-- C5, amended: there is no 40-byte guard.  At a position with fewer than
40 captured bytes remaining, whenever the message type cannot be read
(fewer than 12 bytes) or reads as a known type (≤ 7), some fixed-header
read goes out of bounds: the exception is caught, the marker is emitted
last, no message completes and the loop stops.  (Only an unknown-type
message can end such a tail without an error, by punting.) -/
theorem short_remainder_stops_with_error :
    ∀ (t : Tvb) (off f : Nat), off < t.reported → t.data.length < off + 40 →
      (t.data.length < off + 12 ∨ le32val t (off + 8) ≤ 7) →
      negoexLoop t (f + 1) off = (msgStep t off).emits ++ [Field.exception] := by
  intro t off f ho hshort hcase
  rcases Nat.lt_or_ge t.data.length (off + 12) with h12 | h12
  · exact negoexLoop_step_error ho (msgStep_res_short_read t off h12) f
  · have hty : le32val t (off + 8) ≤ 7 := by
      rcases hcase with h | h
      · omega
      · exact h
    exact negoexLoop_step_error ho (msgStep_res_short_header t off h12 hty hshort) f

/-- C5, witness: the amended theorem applied to the 20-byte buffer `cex5`. -/
theorem short_remainder_stops_with_error_witness :
    negoexLoop (mkTvb cex5) 11 0 = (msgStep (mkTvb cex5) 0).emits ++ [Field.exception] := by
  exact short_remainder_stops_with_error (mkTvb cex5) 0 10 (by decide) (by decide)
    (Or.inr (by decide))

/-- C6: any error raised while decoding a single message is caught at the
per-message boundary: the loop keeps every field emitted before the error,
appends the explicit exception marker, and decodes no further message. -/
theorem message_error_caught_at_boundary :
    ∀ (t : Tvb) (off f : Nat) (e : DErr), off < t.reported →
      (msgStep t off).res = .error e →
      negoexLoop t (f + 1) off = (msgStep t off).emits ++ [Field.exception] := by
  intro t off f e ho hres
  exact negoexLoop_step_error ho hres f

/-- C6, witness: in `cex6` the VERIFY message's checksum read fails out of
bounds; the partial fields remain, the marker is appended, and the valid
ALERT message that follows is not decoded. -/
theorem message_error_caught_at_boundary_witness :
    negoexLoop (mkTvb cex6) 201 0 = (msgStep (mkTvb cex6) 0).emits ++ [Field.exception] := by
  exact message_error_caught_at_boundary (mkTvb cex6) 0 200 .outOfBounds (by decide) (by decide)

/-- C7: a successfully decoded known-type message advances the loop by
exactly its own `message_length` (next offset = start offset +
`message_length`, as a `guint32`), its subtree is emitted, and the loop
output is that message's emissions followed by the rest of the stream. -/
theorem valid_message_advances_by_message_len :
    ∀ (t : Tvb) (off f : Nat), off < t.reported → off + 40 ≤ t.data.length →
      le32val t (off + 8) ≤ 7 →
      off + min (le32val t (off + 20)) t.data.length ≤ t.data.length →
      (bodyOf t off).res = .ok () →
      (msgStep t off).res = .ok ((off + le32val t (off + 20)) % u32) ∧
      Field.msgTree true (le32val t (off + 8)) off ∈ (msgStep t off).emits ∧
      negoexLoop t (f + 1) off =
        (msgStep t off).emits ++ negoexLoop t f ((off + le32val t (off + 20)) % u32) := by
  intro t off f ho hb hty hsub hbody
  have hstep := msgStep_eq_known t off hb hty hsub
  have hres : (msgStep t off).res = .ok ((off + le32val t (off + 20)) % u32) := by
    rw [hstep]
    simp [hbody]
  refine ⟨hres, ?_, negoexLoop_step_ok ho hres f⟩
  rw [hstep]
  simp [hdrEmits, decide_eq_true hty]

/-- C7, witness: three back-to-back valid Nego messages of 96 bytes each;
the loop advances 0 → 96 → 192 → 288 and each message's subtree is
emitted. -/
theorem valid_message_advances_by_message_len_witness :
    ((msgStep (mkTvb threeNego) 0).res = .ok 96 ∧
      Field.msgTree true 0 0 ∈ (msgStep (mkTvb threeNego) 0).emits ∧
      negoexLoop (mkTvb threeNego) 289 0 =
        (msgStep (mkTvb threeNego) 0).emits ++ negoexLoop (mkTvb threeNego) 288 96) ∧
    ((msgStep (mkTvb threeNego) 96).res = .ok 192 ∧
      Field.msgTree true 0 96 ∈ (msgStep (mkTvb threeNego) 96).emits ∧
      negoexLoop (mkTvb threeNego) 193 96 =
        (msgStep (mkTvb threeNego) 96).emits ++ negoexLoop (mkTvb threeNego) 192 192) ∧
    ((msgStep (mkTvb threeNego) 192).res = .ok 288 ∧
      Field.msgTree true 0 192 ∈ (msgStep (mkTvb threeNego) 192).emits ∧
      negoexLoop (mkTvb threeNego) 97 192 =
        (msgStep (mkTvb threeNego) 192).emits ++ negoexLoop (mkTvb threeNego) 96 288) := by
  refine ⟨?_, ?_, ?_⟩
  · exact valid_message_advances_by_message_len (mkTvb threeNego) 0 288 (by decide)
      (by decide) (by decide) (by decide) (by decide)
  · exact valid_message_advances_by_message_len (mkTvb threeNego) 96 192 (by decide)
      (by decide) (by decide) (by decide) (by decide)
  · exact valid_message_advances_by_message_len (mkTvb threeNego) 192 96 (by decide)
      (by decide) (by decide) (by decide) (by decide)

/-- C8, counterexample: in `cex8` the Nego AuthScheme vector references
offset 200 with count 1, past the 96-byte buffer.  The sibling fields
emitted before the vector remain, but the error is not local to the
vector's subtree: the extension vector that follows in the same message is
never decoded and the stream stops with the error marker. -/
theorem vector_oob_not_local_cex :
    Field.item .asVecOffset 80 4 ∈ (dissect_negoex (mkTvb cex8)).1 ∧
    Field.item .extVecOffset 88 4 ∉ (dissect_negoex (mkTvb cex8)).1 ∧
    Field.exception ∈ (dissect_negoex (mkTvb cex8)).1 := by
  refine ⟨by decide, by decide, by decide⟩

/-- C8, amended: a vector whose `referenced_offset + count × element_size`
exceeds the captured buffer leaves every sibling field already emitted
intact, but the resulting `OutOfBounds` is not local to the vector's
subtree: it aborts the rest of that message's decode (shown for the Nego
AuthScheme vector, where the following extension fields are lost, and for
the Verify checksum vector) and propagates to the stream loop. -/
theorem vector_oob_aborts_message :
    (∀ (t : Tvb) (s : Nat), s + 48 ≤ t.data.length → 1 ≤ le16val t (s + 44) →
      t.data.length < le32val t (s + 40) + 16 →
      dissect_negoex_nego_message t s =
        ⟨[.item .random s 32, .item .protoVersion (s + 32) 8,
          .sub .authschemes (s + 40) (le16val t (s + 44)) (le32val t (s + 40)),
          .item .asVecOffset (s + 40) 4, .item .asVecCount (s + 44) 2,
          .item .asVecPad (s + 46) 2], .error .outOfBounds⟩) ∧
    (∀ (t : Tvb) (s : Nat), s + 36 ≤ t.data.length →
      t.data.length < le32val t (s + 28) + le16val t (s + 32) →
      dissect_negoex_verify_message t s =
        ⟨[.item .authscheme s 16, .sub .checksum (s + 16) 0 0,
          .item .headerLen (s + 16) 4, .item .checksumScheme (s + 20) 4,
          .item .checksumType (s + 24) 4,
          .sub .checksumVector (s + 28) (le16val t (s + 32)) (le32val t (s + 28)),
          .item .cvOffset (s + 28) 4, .item .cvCount (s + 32) 2,
          .item .cvPad (s + 34) 2], .error .outOfBounds⟩) := by
  constructor
  · intro t s hb hcnt hoob
    exact nego_vector_oob_eq hb hcnt hoob
  · intro t s hb hoob
    exact verify_vector_oob_eq hb hoob

/-- C8, witness: the Nego case on `cex8` and the Verify case on
`verifyOob`. -/
theorem vector_oob_aborts_message_witness :
    dissect_negoex_nego_message (mkTvb cex8) 40 =
      ⟨[.item .random 40 32, .item .protoVersion 72 8,
        .sub .authschemes 80 1 200, .item .asVecOffset 80 4,
        .item .asVecCount 84 2, .item .asVecPad 86 2], .error .outOfBounds⟩ ∧
    dissect_negoex_verify_message (mkTvb verifyOob) 40 =
      ⟨[.item .authscheme 40 16, .sub .checksum 56 0 0,
        .item .headerLen 56 4, .item .checksumScheme 60 4,
        .item .checksumType 64 4, .sub .checksumVector 68 4 200,
        .item .cvOffset 68 4, .item .cvCount 72 2,
        .item .cvPad 74 2], .error .outOfBounds⟩ := by
  constructor
  · exact vector_oob_aborts_message.1 (mkTvb cex8) 40 (by decide) (by decide) (by decide)
  · exact vector_oob_aborts_message.2 (mkTvb verifyOob) 40 (by decide) (by decide)

/-- C9: the entry point is independent of process history.  With the
file-scope `object_identifier_id` global threaded explicitly, a sequence of
invocations on successive buffers produces exactly the per-buffer outputs:
no code reachable from `dissect_negoex` reads or writes the global (the
only functions that do, around `dissect_pku2u_oid`, are never called by
it), so each invocation's output is a function of its own buffer alone. -/
theorem entry_point_history_independent :
    ∀ (g : GlobalOidState) (ts : List Tvb),
      dissect_negoex_session g ts = ts.map dissect_negoex := by
  intro g ts
  induction ts generalizing g with
  | nil => rfl
  | cons t ts ih =>
    simp [dissect_negoex_session, dissect_negoex_invoke, ih]

/-- C10: `dissect_negoex` returns `tvb_captured_length(tvb)` on every
input — the single `return` is unconditional, so the value is the same
whether the loop drained the stream, stopped on a caught per-message
error, or punted on an unknown message type. -/
theorem dissect_returns_captured_length :
    ∀ t : Tvb, (dissect_negoex t).2 = t.data.length := by
  intro t
  rfl

end Negoex
